import Mathlib

/-!
# Verification of the IP → country-code pipeline (`src/ip.py`)

Shallow embedding of the program. Python strings are modelled as
`List Char` where character-level behaviour matters (the address
normaliser), and as `String` elsewhere. Python `int()` is modelled for
ASCII input: surrounding ASCII whitespace, an optional single sign, then
a nonempty run of decimal digits; everything else raises `ValueError`,
modelled as `none`.
-/

namespace IpRepo

/-- Python `str.split(sep)` for a one-character separator:
`pySplit '.' "a..b"` gives `["a", "", "b"]`, and `""` splits to `[""]`. -/
def pySplit (sep : Char) : List Char → List (List Char)
  | [] => [[]]
  | c :: rest =>
    match pySplit sep rest with
    | [] => [[c]]
    | p :: ps => if c = sep then [] :: p :: ps else (c :: p) :: ps

/-- Joining with a one-character separator: Python `sep.join(parts)`. -/
def pyJoin (sep : Char) : List (List Char) → List Char
  | [] => []
  | [p] => p
  | p :: ps => p ++ sep :: pyJoin sep ps

/-- The ASCII whitespace characters Python's `int()` ignores around a
number (the model is restricted to ASCII input). -/
def pyIntWhitespace : List Char := [' ', '\t', '\n', '\x0b', '\x0c', '\r']

/-- The characters removed by `ip.strip('[]')` in `normalize_ip` and
`is_valid_ip` (lines 27 and 60 of `src/ip.py`). -/
def bracketChars : List Char := ['[', ']']

/-- Python `str.strip(chars)`: remove characters of `chars` from both
ends of the string. -/
def pyStrip (cs : List Char) (chars : List Char) : List Char :=
  ((cs.dropWhile (fun c => c ∈ chars)).reverse.dropWhile (fun c => c ∈ chars)).reverse

/-- Numeric value of an ASCII digit character. -/
def digitVal (c : Char) : Nat := c.toNat - 48

/-- Value of a nonempty all-digit character run; `none` otherwise. -/
def digitsVal (cs : List Char) : Option Nat :=
  if cs ≠ [] ∧ cs.all Char.isDigit then
    some (cs.foldl (fun a c => a * 10 + digitVal c) 0)
  else none

/-- Python `int(s)` (ASCII model): strip whitespace, allow one leading
sign, then require a nonempty run of decimal digits. A failure
(`ValueError`) is `none`. -/
def pyInt (cs : List Char) : Option Int :=
  match pyStrip cs pyIntWhitespace with
  | [] => none
  | c :: ds =>
    if c = '+' then (digitsVal ds).map (fun n => (n : Int))
    else if c = '-' then (digitsVal ds).map (fun n => -(n : Int))
    else (digitsVal (c :: ds)).map (fun n => (n : Int))

/-- Python `str(n)` for a natural number: its decimal digits. -/
def pyStrNat (n : Nat) : List Char := Nat.toDigits 10 n

/-- Python `str(i)` for an integer. -/
def pyStrInt (i : Int) : List Char :=
  if i < 0 then '-' :: pyStrNat i.natAbs else pyStrNat i.toNat

/-- `normalize_ip` (`src/ip.py` lines 23–54): strip surrounding square
brackets, split on `'.'`, require exactly four parts with the first
three parsing to integers in `[0, 255]`; if the fourth part's value
exceeds 255, carry `last_num // 256` into the third octet (rejecting if
the updated third octet exceeds 255) and keep `last_num % 256`; rejoin
with `'.'`. Any parse failure yields `none` (the `except` branch). -/
def normalize_ip (ipRaw : List Char) : Option (List Char) :=
  let ip := pyStrip ipRaw bracketChars
  match pySplit '.' ip with
  | [p0, p1, p2, p3] =>
    match pyInt p0, pyInt p1, pyInt p2 with
    | some n0, some n1, some n2 =>
      if (0 ≤ n0 ∧ n0 ≤ 255) ∧ (0 ≤ n1 ∧ n1 ≤ 255) ∧ (0 ≤ n2 ∧ n2 ≤ 255) then
        match pyInt p3 with
        | some last_num =>
          if 255 < last_num then
            let carry := Int.fdiv last_num 256
            let remainder := Int.fmod last_num 256
            let p2' := pyStrInt (n2 + carry)
            match pyInt p2' with
            | some m2 =>
              if 255 < m2 then none
              else some (pyJoin '.' [p0, p1, p2', pyStrInt remainder])
            | none => none
          else some (pyJoin '.' [p0, p1, p2, p3])
        | none => none
      else none
    | _, _, _ => none
  | _ => none

/-- `is_valid_ip` (`src/ip.py` lines 56–82): same strip/split/range
checks as `normalize_ip`; a last octet ≤ 255 is valid as-is, a larger
one is valid exactly when `normalize_ip` (applied to the already
stripped string, as the source reassigns `ip`) succeeds. -/
def is_valid_ip (ipRaw : List Char) : Bool :=
  let ip := pyStrip ipRaw bracketChars
  match pySplit '.' ip with
  | [p0, p1, p2, p3] =>
    match pyInt p0, pyInt p1, pyInt p2 with
    | some n0, some n1, some n2 =>
      if (0 ≤ n0 ∧ n0 ≤ 255) ∧ (0 ≤ n1 ∧ n1 ≤ 255) ∧ (0 ≤ n2 ∧ n2 ≤ 255) then
        match pyInt p3 with
        | some last_num =>
          if last_num ≤ 255 then true
          else (normalize_ip ip).isSome
        | none => false
      else false
    | _, _, _ => false
  | _ => false

/-! ## Country resolver (`get_country_code`, lines 129–193)

The resolver's environment is modelled by two oracles: the local
GeoIP2 lookup (`dbCode`) and the `ip-api.com` HTTP endpoint (`api`,
indexed by the value of the `retries` counter at the time of the call).
The embedding also counts the observable queries the code issues —
local-database queries, online HTTP calls and the backoff sleeps —
since the claims are about those counts. -/

/-- The body of an `ip-api.com` HTTP response as `get_country_code`
distinguishes it: whitespace-only text (line 167), text that fails JSON
parsing (line 172), or a JSON object with a `status` field and an
optional `countryCode` field (lines 178–181). -/
inductive ApiBody
  | empty
  | malformed
  | json (success : Bool) (countryCode : Option String)
  deriving DecidableEq

/-- The outcome of one `requests.get` call: an HTTP response with a
status code and body, a timeout (line 186), or another exception
(line 189). -/
inductive ApiResult
  | response (status : Nat) (body : ApiBody)
  | timeout
  | connError
  deriving DecidableEq

/-- `MIN_INTERVAL = 1.0` (line 14); seconds, as a rational (the float
arithmetic the code performs on it is exact). -/
def MIN_INTERVAL : ℚ := 1

/-- `MAX_RETRIES = 2` (line 15). -/
def MAX_RETRIES : Nat := 2

/-- What one `get_country_code` call did: the returned code, how many
local-database queries and online HTTP calls it issued, and the
exponential-backoff sleeps (seconds) it performed between rate-limited
attempts. -/
structure ResolveOutcome where
  code : String
  dbQueries : Nat
  onlineCalls : Nat
  backoffWaits : List ℚ
  deriving DecidableEq

/-- The `while retries < MAX_RETRIES` loop of `get_country_code`
(lines 142–193). `fuel` is `MAX_RETRIES - retries`, so `fuel = 0` is
exactly the loop guard failing (the final `return "XX"` on line 193).
On HTTP 429 the code increments `retries`, and if the loop can still
run it sleeps `(2 ** retries) * MIN_INTERVAL` seconds (after the
increment) and continues; otherwise it returns `"XX"` (lines 150–159).
Any non-200 status, empty body, JSON failure, non-success payload,
timeout or other exception returns `"XX"` without retrying; a success
payload returns `countryCode` with default `"XX"` (lines 162–191).
Returns (code, online calls issued, backoff sleeps). -/
def online_query_loop (api : Nat → ApiResult) : Nat → Nat → String × Nat × List ℚ
  | _retries, 0 => ("XX", 0, [])
  | retries, fuel + 1 =>
    match api retries with
    | .response s body =>
      if s = 429 then
        if retries + 1 < MAX_RETRIES then
          let r := online_query_loop api (retries + 1) fuel
          (r.1, r.2.1 + 1, ((2 ^ (retries + 1) : ℚ) * MIN_INTERVAL) :: r.2.2)
        else ("XX", 1, [])
      else if s ≠ 200 then ("XX", 1, [])
      else
        match body with
        | .empty => ("XX", 1, [])
        | .malformed => ("XX", 1, [])
        | .json success cc =>
          if success then (cc.getD "XX", 1, []) else ("XX", 1, [])
    | .timeout => ("XX", 1, [])
    | .connError => ("XX", 1, [])

/-- `get_country_code` (lines 129–193): query the local database first
(`dbCode = none` models `reader.country` raising, `some ""` models a
falsy `iso_code`); any non-empty code is returned at once, otherwise
fall through to the online loop. Every call unconditionally issues
exactly one local-database query — there is no cache anywhere in
`src/ip.py`. -/
def get_country_code (dbCode : Option String) (api : Nat → ApiResult) : ResolveOutcome :=
  match dbCode with
  | some cc =>
    if cc ≠ "" then ⟨cc, 1, 0, []⟩
    else
      let r := online_query_loop api 0 MAX_RETRIES
      ⟨r.1, 1, r.2.1, r.2.2⟩
  | none =>
    let r := online_query_loop api 0 MAX_RETRIES
    ⟨r.1, 1, r.2.1, r.2.2⟩

/-! ## Batch orchestration and per-country output
(`batch_process_ips` lines 274–300, `read_ip_from_url` lines 333–394,
`resolve_domain` lines 257–266, `main` lines 446–450) -/

/-- `result.split('#')[-1]` (line 293): the country code carried in a
result line `address:port#countryCode`. -/
def countryOf (r : String) : String :=
  ⟨(pySplit '#' r.data).getLastD []⟩

/-- One step of building `country_results` (lines 294–296): append the
result line to the dict entry of its country code, creating the entry
if absent. Python dicts preserve insertion order, modelled by an
association list. -/
def addToCountry (acc : List (String × List String)) (r : String) :
    List (String × List String) :=
  let cc := countryOf r
  if acc.any (fun p => p.1 = cc) then
    acc.map (fun p => if p.1 = cc then (p.1, p.2 ++ [r]) else p)
  else
    acc ++ [(cc, [r])]

/-- `batch_process_ips` (lines 274–300): submit every address of the
list to one thread pool, collect all per-address result lines and group
them by country code. `resolveLine` abstracts `process_single_ip` for
one address (its output depends on the database and network oracles);
the completion order of the pool is not modelled since no claim here
depends on the order of lines within the single pool run. -/
def batch_process_ips (resolveLine : String → List String) (ips : List String) :
    List String × List (String × List String) :=
  let results := (ips.map resolveLine).flatten
  (results, results.foldl addToCountry [])

/-- `'U'` → `'u'` for ASCII letters: Python `str.lower()` restricted to
the ASCII country codes it is applied to. -/
def pyCharLower (c : Char) : Char :=
  if 65 ≤ c.toNat ∧ c.toNat ≤ 90 then Char.ofNat (c.toNat + 32) else c

/-- Python `str.lower()` (ASCII model). -/
def pyLower (s : String) : String := ⟨s.data.map pyCharLower⟩

/-- `os.path.join("ip", f'{country_code.lower()}.txt')` (lines 262,
384). -/
def shardFileName (cc : String) : String := "ip/" ++ pyLower cc ++ ".txt"

/-- The per-country write plan of a grouped result set: skip `"XX"`
(lines 259, 381) and pair each remaining country's shard file name with
its result lines (lines 262–265, 384–387). -/
def shard_write_plan (cr : List (String × List String)) :
    List (String × List String) :=
  (cr.filter (fun p => p.1 ≠ "XX")).map (fun p => (shardFileName p.1, p.2))

/-- An observable event of the URL pipeline: a worker processing one
address, or one per-country shard write. -/
inductive PipelineEvent
  | process (ip : String)
  | flushShard (file : String) (lines : List String)
  deriving DecidableEq

/-- Whether an event is a worker processing an address. -/
def isProcess : PipelineEvent → Bool
  | .process _ => true
  | _ => false

/-- The event order of `read_ip_from_url` (lines 372–388): the single
`batch_process_ips` call processes every collected address (line 373),
and only after it returns does the per-country write loop run
(lines 380–388). There is no partition into smaller batches anywhere in
the function. -/
def read_ip_from_url_trace (ips : List String) (resolveLine : String → List String) :
    List PipelineEvent :=
  ips.map PipelineEvent.process
    ++ (shard_write_plan (batch_process_ips resolveLine ips).2).map
        (fun p => PipelineEvent.flushShard p.1 p.2)

/-- The output directory as a mapping from file name to the lines the
file holds; `none` is an absent file. -/
def FileSystem : Type := String → Option (List String)

/-- `open(filename, 'a')` then writing `lines`: append to the existing
contents, creating the file if absent (used by `resolve_domain`,
line 263). -/
def write_lines_append (fs : FileSystem) (name : String) (lines : List String) :
    FileSystem :=
  fun f => if f = name then some ((fs name).getD [] ++ lines) else fs f

/-- `open(filename, 'w')` then writing `lines`: truncate and replace the
file's contents (used by `read_ip_from_url`, line 385, and `main`,
line 448). -/
def write_lines_overwrite (fs : FileSystem) (name : String) (lines : List String) :
    FileSystem :=
  fun f => if f = name then some lines else fs f

/-- The shard-flush loop of `resolve_domain` (lines 257–266): for each
country except `"XX"`, append its result lines to the country's shard
file (mode `'a'`). -/
def resolve_domain_flush (fs : FileSystem) (cr : List (String × List String)) :
    FileSystem :=
  cr.foldl
    (fun fs p =>
      if p.1 = "XX" then fs else write_lines_append fs (shardFileName p.1) p.2)
    fs

/-- The shard-flush loop of `read_ip_from_url` (lines 379–388): for each
country except `"XX"`, overwrite the country's shard file with its
result lines (mode `'w'`). -/
def read_ip_from_url_flush (fs : FileSystem) (cr : List (String × List String)) :
    FileSystem :=
  cr.foldl
    (fun fs p =>
      if p.1 = "XX" then fs else write_lines_overwrite fs (shardFileName p.1) p.2)
    fs

/-- The combined-summary write of `main` (lines 446–450): if any result
was collected, overwrite `ip/ip.txt` with every result line. -/
def main_combined_write (fs : FileSystem) (allResults : List String) : FileSystem :=
  if allResults = [] then fs
  else write_lines_overwrite fs "ip/ip.txt" allResults

/-! ## Lemmas about the string model -/

theorem pySplit_ne_nil (sep : Char) (cs : List Char) : pySplit sep cs ≠ [] := by
  cases cs with
  | nil => simp [pySplit]
  | cons c rest =>
    simp only [pySplit]
    cases h : pySplit sep rest with
    | nil => simp
    | cons p ps => by_cases hc : c = sep <;> simp [hc]

theorem pyJoin_pySplit (sep : Char) (cs : List Char) :
    pyJoin sep (pySplit sep cs) = cs := by
  induction cs with
  | nil => rfl
  | cons c rest ih =>
    simp only [pySplit]
    cases h : pySplit sep rest with
    | nil => exact absurd h (pySplit_ne_nil sep rest)
    | cons p ps =>
      rw [h] at ih
      by_cases hc : c = sep
      · subst hc
        simp [pyJoin, ih]
      · cases ps with
        | nil =>
          simp only [pyJoin] at ih
          simp [hc, pyJoin, ih]
        | cons q qs =>
          simp only [pyJoin] at ih
          simp [hc, pyJoin, ih]

theorem mem_of_head?_eq_some {α : Type} {l : List α} {a : α}
    (h : l.head? = some a) : a ∈ l := by
  cases l with
  | nil => simp at h
  | cons b l => simp at h; simp [h]

theorem head?_append_of_left_ne_nil {α : Type} {xs : List α} (ys : List α)
    (h : xs ≠ []) : (xs ++ ys).head? = xs.head? := by
  cases xs with
  | nil => exact absurd rfl h
  | cons a l => simp

theorem getLast?_append_of_right_ne_nil {α : Type} (xs : List α) {ys : List α}
    (h : ys ≠ []) : (xs ++ ys).getLast? = ys.getLast? := by
  rw [List.getLast?_append]
  cases hy : ys.getLast? with
  | some a => rfl
  | none =>
    exfalso
    cases ys with
    | nil => exact h rfl
    | cons b l => rw [List.getLast?_eq_head?_reverse] at hy; simp at hy

theorem dropWhile_eq_self_of_head {p : Char → Bool} {l : List Char}
    (h : ∀ c, l.head? = some c → p c = false) : l.dropWhile p = l := by
  cases l with
  | nil => rfl
  | cons a l =>
    rw [List.dropWhile_cons, h a rfl]
    simp

theorem head?_dropWhile_false {p : Char → Bool} {l : List Char} {c : Char}
    (h : (l.dropWhile p).head? = some c) : p c = false := by
  induction l with
  | nil => simp at h
  | cons a l ih =>
    rw [List.dropWhile_cons] at h
    by_cases hp : p a
    · exact ih (by simpa [hp] using h)
    · rw [if_neg (by simp [hp])] at h
      simp at h
      subst h
      simp only [Bool.not_eq_true] at hp
      exact hp

theorem exists_append_dropWhile (p : Char → Bool) (l : List Char) :
    ∃ u, l = u ++ l.dropWhile p := by
  induction l with
  | nil => exact ⟨[], rfl⟩
  | cons a l ih =>
    rw [List.dropWhile_cons]
    by_cases hp : p a
    · obtain ⟨u, hu⟩ := ih
      refine ⟨a :: u, ?_⟩
      simp [hp, ← hu]
    · exact ⟨[], by simp [hp]⟩

theorem pyStrip_eq_self {cs chars : List Char}
    (hh : ∀ c, cs.head? = some c → decide (c ∈ chars) = false)
    (hl : ∀ c, cs.getLast? = some c → decide (c ∈ chars) = false) :
    pyStrip cs chars = cs := by
  unfold pyStrip
  rw [dropWhile_eq_self_of_head hh]
  rw [dropWhile_eq_self_of_head (by
    intro c h
    rw [List.head?_reverse] at h
    exact hl c h)]
  exact List.reverse_reverse cs

theorem pyStrip_head?_false {cs chars : List Char} {c : Char}
    (h : (pyStrip cs chars).head? = some c) : decide (c ∈ chars) = false := by
  unfold pyStrip at h
  obtain ⟨u, hu⟩ := exists_append_dropWhile (fun c => decide (c ∈ chars))
    (cs.dropWhile (fun c => decide (c ∈ chars))).reverse
  have hx : cs.dropWhile (fun c => decide (c ∈ chars))
      = ((cs.dropWhile (fun c => decide (c ∈ chars))).reverse.dropWhile
          (fun c => decide (c ∈ chars))).reverse ++ u.reverse := by
    have h2 := congrArg List.reverse hu
    simpa using h2
  have hne : ((cs.dropWhile (fun c => decide (c ∈ chars))).reverse.dropWhile
      (fun c => decide (c ∈ chars))).reverse ≠ [] := by
    intro hnil
    rw [hnil] at h
    simp at h
  have hcA : (cs.dropWhile (fun c => decide (c ∈ chars))).head? = some c := by
    rw [hx, head?_append_of_left_ne_nil _ hne]
    exact h
  exact head?_dropWhile_false hcA

theorem pyStrip_getLast?_false {cs chars : List Char} {c : Char}
    (h : (pyStrip cs chars).getLast? = some c) : decide (c ∈ chars) = false := by
  unfold pyStrip at h
  rw [List.getLast?_reverse] at h
  exact head?_dropWhile_false h

theorem pyStrip_idem (cs chars : List Char) :
    pyStrip (pyStrip cs chars) chars = pyStrip cs chars := by
  apply pyStrip_eq_self
  · intro c h; exact pyStrip_head?_false h
  · intro c h; exact pyStrip_getLast?_false h

/-! ## Character-class facts and the shape of successful `pyInt` parses -/

theorem ws_not_bracket : ∀ c ∈ pyIntWhitespace, c ∉ bracketChars := by decide

theorem digit_not_bracket {c : Char} (h : c.isDigit = true) : c ∉ bracketChars := by
  intro hc
  simp only [bracketChars, List.mem_cons, List.mem_singleton, List.not_mem_nil, or_false] at hc
  rcases hc with rfl | rfl <;> exact absurd h (by decide)

theorem digit_not_ws {c : Char} (h : c.isDigit = true) : c ∉ pyIntWhitespace := by
  intro hc
  simp only [pyIntWhitespace, List.mem_cons, List.not_mem_nil, or_false] at hc
  rcases hc with rfl | rfl | rfl | rfl | rfl | rfl <;> exact absurd h (by decide)

theorem digit_ne_plus {c : Char} (h : c.isDigit = true) : ¬(c = '+') := by
  rintro rfl; exact absurd h (by decide)

theorem digit_ne_minus {c : Char} (h : c.isDigit = true) : ¬(c = '-') := by
  rintro rfl; exact absurd h (by decide)

theorem digitsVal_conds {ds : List Char} {m : Nat} (h : digitsVal ds = some m) :
    ds ≠ [] ∧ ds.all Char.isDigit = true := by
  unfold digitsVal at h
  by_cases hc : ds ≠ [] ∧ ds.all Char.isDigit
  · exact ⟨hc.1, hc.2⟩
  · rw [if_neg hc] at h
    exact absurd h (by simp)

theorem pyInt_nil_eval {p : List Char} (ht : pyStrip p pyIntWhitespace = []) :
    pyInt p = none := by
  unfold pyInt
  rw [ht]

theorem pyInt_cons_eval {p : List Char} {c0 : Char} {ds : List Char}
    (ht : pyStrip p pyIntWhitespace = c0 :: ds) :
    pyInt p
      = if c0 = '+' then (digitsVal ds).map (fun n => (n : Int))
        else if c0 = '-' then (digitsVal ds).map (fun n => -(n : Int))
        else (digitsVal (c0 :: ds)).map (fun n => (n : Int)) := by
  unfold pyInt
  rw [ht]

theorem pyInt_strip_shape {p : List Char} {n : Int} (h : pyInt p = some n) :
    ∃ c0 ds, pyStrip p pyIntWhitespace = c0 :: ds ∧
      (((c0 = '+' ∨ c0 = '-') ∧ ds ≠ [] ∧ ds.all Char.isDigit = true)
        ∨ (c0 :: ds).all Char.isDigit = true) := by
  cases ht : pyStrip p pyIntWhitespace with
  | nil => rw [pyInt_nil_eval ht] at h; exact absurd h (by simp)
  | cons c0 ds =>
    rw [pyInt_cons_eval ht] at h
    refine ⟨c0, ds, rfl, ?_⟩
    by_cases hplus : c0 = '+'
    · rw [if_pos hplus] at h
      cases hdv : digitsVal ds with
      | none => rw [hdv] at h; simp at h
      | some m => exact Or.inl ⟨Or.inl hplus, digitsVal_conds hdv⟩
    · rw [if_neg hplus] at h
      by_cases hminus : c0 = '-'
      · rw [if_pos hminus] at h
        cases hdv : digitsVal ds with
        | none => rw [hdv] at h; simp at h
        | some m => exact Or.inl ⟨Or.inr hminus, digitsVal_conds hdv⟩
      · rw [if_neg hminus] at h
        cases hdv : digitsVal (c0 :: ds) with
        | none => rw [hdv] at h; simp at h
        | some m => exact Or.inr (digitsVal_conds hdv).2

theorem pyInt_ne_nil {p : List Char} {n : Int} (h : pyInt p = some n) : p ≠ [] := by
  rintro rfl
  obtain ⟨c0, ds, ht, _⟩ := pyInt_strip_shape h
  simp [pyStrip] at ht

/-- A string that `int()` accepts cannot start with a square bracket. -/
theorem pyInt_head_not_bracket {p : List Char} {n : Int} {c : Char}
    (h : pyInt p = some n) (hc : p.head? = some c) : c ∉ bracketChars := by
  obtain ⟨c0, ds, ht, hshape⟩ := pyInt_strip_shape h
  by_cases hw : c ∈ pyIntWhitespace
  · exact ws_not_bracket c hw
  · -- the leading whitespace strip keeps the head, so `c = c0`
    have hA : p.dropWhile (fun x => decide (x ∈ pyIntWhitespace)) = p :=
      dropWhile_eq_self_of_head (by
        intro d hd
        rw [hc] at hd
        cases hd
        exact decide_eq_false hw)
    obtain ⟨u, hu⟩ := exists_append_dropWhile (fun x => decide (x ∈ pyIntWhitespace))
      (p.dropWhile (fun x => decide (x ∈ pyIntWhitespace))).reverse
    have hx : p = pyStrip p pyIntWhitespace ++ u.reverse := by
      have h2 := congrArg List.reverse hu
      simp only [List.reverse_reverse, List.reverse_append] at h2
      rw [hA] at h2
      unfold pyStrip
      rw [hA]
      exact h2
    have hne : pyStrip p pyIntWhitespace ≠ [] := by rw [ht]; simp
    have hcc : c = c0 := by
      rw [hx, head?_append_of_left_ne_nil _ hne, ht] at hc
      simpa using hc.symm
    subst hcc
    rcases hshape with ⟨hsign, _, _⟩ | hdig
    · rcases hsign with rfl | rfl <;> decide
    · have : c.isDigit = true := by
        have := List.all_eq_true.mp hdig
        simpa using this c (by simp)
      exact digit_not_bracket this

/-- A string that `int()` accepts cannot end with a square bracket. -/
theorem pyInt_getLast_not_bracket {p : List Char} {n : Int} {c : Char}
    (h : pyInt p = some n) (hc : p.getLast? = some c) : c ∉ bracketChars := by
  obtain ⟨c0, ds, ht, hshape⟩ := pyInt_strip_shape h
  by_cases hw : c ∈ pyIntWhitespace
  · exact ws_not_bracket c hw
  · -- the trailing strip keeps the last character, so `c` is the last of the core
    have hBne : (p.dropWhile (fun x => decide (x ∈ pyIntWhitespace))) ≠ [] := by
      intro hnil
      have : pyStrip p pyIntWhitespace = [] := by simp [pyStrip, hnil]
      rw [ht] at this
      simp at this
    obtain ⟨u, hu⟩ := exists_append_dropWhile (fun x => decide (x ∈ pyIntWhitespace)) p
    have hlB : (p.dropWhile (fun x => decide (x ∈ pyIntWhitespace))).getLast? = some c := by
      rw [hu, getLast?_append_of_right_ne_nil _ hBne] at hc
      exact hc
    have hBrev : (p.dropWhile (fun x => decide (x ∈ pyIntWhitespace))).reverse.head? = some c := by
      rw [List.head?_reverse]
      exact hlB
    have hself : (p.dropWhile (fun x => decide (x ∈ pyIntWhitespace))).reverse.dropWhile
        (fun x => decide (x ∈ pyIntWhitespace))
        = (p.dropWhile (fun x => decide (x ∈ pyIntWhitespace))).reverse :=
      dropWhile_eq_self_of_head (by
        intro d hd
        rw [hBrev] at hd
        cases hd
        exact decide_eq_false hw)
    have hts : pyStrip p pyIntWhitespace
        = p.dropWhile (fun x => decide (x ∈ pyIntWhitespace)) := by
      simp [pyStrip, hself]
    have hlast : (c0 :: ds).getLast? = some c := by
      rw [← ht, hts]
      exact hlB
    -- the last character of the stripped core is a digit
    rcases hshape with ⟨_, hds, hdig⟩ | hdig
    · have : (c0 :: ds).getLast? = ds.getLast? := by
        cases ds with
        | nil => exact absurd rfl hds
        | cons d ds' => simp [List.getLast?_cons_cons]
      rw [this] at hlast
      have hmem : c ∈ ds := List.mem_of_getLast?_eq_some hlast
      have : c.isDigit = true := by
        have := List.all_eq_true.mp hdig
        simpa using this c hmem
      exact digit_not_bracket this
    · have hmem : c ∈ c0 :: ds := List.mem_of_getLast?_eq_some hlast
      have : c.isDigit = true := by
        have := List.all_eq_true.mp hdig
        simpa using this c hmem
      exact digit_not_bracket this

/-! ## `int(str(n)) = n`: the parse–render round trip -/

theorem toDigitsCore_append (fuel n : Nat) (ds : List Char) :
    Nat.toDigitsCore 10 fuel n ds = Nat.toDigitsCore 10 fuel n [] ++ ds := by
  induction fuel generalizing n ds with
  | zero => rfl
  | succ fuel ih =>
    simp only [Nat.toDigitsCore]
    by_cases h : n / 10 = 0
    · simp [h]
    · simp only [h, if_false]
      rw [ih (n / 10) (Nat.digitChar (n % 10) :: ds), ih (n / 10) [Nat.digitChar (n % 10)]]
      simp

theorem digitChar_spec (m : Nat) (h : m < 10) :
    (Nat.digitChar m).isDigit = true ∧ digitVal (Nat.digitChar m) = m := by
  interval_cases m <;> exact ⟨by decide, by decide⟩

theorem toDigitsCore_spec (fuel n : Nat) (h : n < fuel) :
    Nat.toDigitsCore 10 fuel n [] ≠ []
    ∧ (Nat.toDigitsCore 10 fuel n []).all Char.isDigit = true
    ∧ (Nat.toDigitsCore 10 fuel n []).foldl (fun a c => a * 10 + digitVal c) 0 = n := by
  induction fuel generalizing n with
  | zero => omega
  | succ fuel ih =>
    obtain ⟨hdd, hdv⟩ := digitChar_spec (n % 10) (Nat.mod_lt _ (by norm_num))
    simp only [Nat.toDigitsCore]
    by_cases h0 : n / 10 = 0
    · have hn : n < 10 := by omega
      simp only [h0, if_true, if_pos rfl]
      refine ⟨by simp, by simp [hdd], ?_⟩
      simp only [List.foldl_cons, List.foldl_nil, Nat.zero_mul, Nat.zero_add]
      omega
    · have h10 : 0 < n := by
        rcases Nat.eq_zero_or_pos n with rfl | hpos
        · simp at h0
        · exact hpos
      have hlt : n / 10 < fuel := by
        have h1 : n / 10 < n := Nat.div_lt_self h10 (by norm_num)
        omega
      obtain ⟨ih1, ih2, ih3⟩ := ih (n / 10) hlt
      rw [if_neg h0, toDigitsCore_append]
      refine ⟨by simp, ?_, ?_⟩
      · simp [List.all_append, ih2, hdd]
      · rw [List.foldl_append, ih3]
        simp only [List.foldl_cons, List.foldl_nil, hdv]
        omega

theorem pyStrNat_spec (n : Nat) :
    pyStrNat n ≠ []
    ∧ (pyStrNat n).all Char.isDigit = true
    ∧ (pyStrNat n).foldl (fun a c => a * 10 + digitVal c) 0 = n :=
  toDigitsCore_spec (n + 1) n (Nat.lt_succ_self n)

theorem digitsVal_pyStrNat (n : Nat) : digitsVal (pyStrNat n) = some n := by
  obtain ⟨h1, h2, h3⟩ := pyStrNat_spec n
  unfold digitsVal
  rw [if_pos ⟨h1, h2⟩, h3]

theorem pyStrip_ws_pyStrNat (n : Nat) :
    pyStrip (pyStrNat n) pyIntWhitespace = pyStrNat n := by
  have h2 := (pyStrNat_spec n).2.1
  have hd : ∀ c ∈ pyStrNat n, c.isDigit = true := by
    intro c hc
    have := List.all_eq_true.mp h2
    simpa using this c hc
  apply pyStrip_eq_self
  · intro c hc
    exact decide_eq_false (digit_not_ws (hd c (mem_of_head?_eq_some hc)))
  · intro c hc
    exact decide_eq_false (digit_not_ws (hd c (List.mem_of_getLast?_eq_some hc)))

theorem pyInt_pyStrNat (n : Nat) : pyInt (pyStrNat n) = some (n : Int) := by
  obtain ⟨h1, h2, _⟩ := pyStrNat_spec n
  cases hsn : pyStrNat n with
  | nil => exact absurd hsn h1
  | cons c ds =>
    have hcd : c.isDigit = true := by
      rw [hsn] at h2
      have := List.all_eq_true.mp h2
      simpa using this c (by simp)
    have ht : pyStrip (c :: ds) pyIntWhitespace = c :: ds := by
      rw [← hsn, pyStrip_ws_pyStrNat]
    rw [pyInt_cons_eval ht, if_neg (digit_ne_plus hcd), if_neg (digit_ne_minus hcd),
      ← hsn, digitsVal_pyStrNat]
    rfl

theorem pyInt_pyStrInt_of_nonneg (i : Int) (h : 0 ≤ i) :
    pyInt (pyStrInt i) = some i := by
  unfold pyStrInt
  rw [if_neg (by omega), pyInt_pyStrNat]
  rw [Int.toNat_of_nonneg h]

/-! ## Evaluation lemmas for `normalize_ip` -/

/-- If the fourth octet parses to a value ≤ 255, no repair happens and
the (stripped) parts are rejoined unchanged. -/
theorem normalize_ip_no_carry {cs p0 p1 p2 p3 : List Char} {n0 n1 n2 v : Int}
    (hsplit : pySplit '.' (pyStrip cs bracketChars) = [p0, p1, p2, p3])
    (h0 : pyInt p0 = some n0) (h1 : pyInt p1 = some n1) (h2 : pyInt p2 = some n2)
    (h3 : pyInt p3 = some v)
    (hr : (0 ≤ n0 ∧ n0 ≤ 255) ∧ (0 ≤ n1 ∧ n1 ≤ 255) ∧ (0 ≤ n2 ∧ n2 ≤ 255))
    (hv : ¬ 255 < v) :
    normalize_ip cs = some (pyJoin '.' [p0, p1, p2, p3]) := by
  simp only [normalize_ip, hsplit, h0, h1, h2, h3, if_pos hr, if_neg hv]

/-- If the fourth octet parses to a value > 255, the carry repair runs:
the result is determined by whether the updated third octet stays
within 255. -/
theorem normalize_ip_carry {cs p0 p1 p2 p3 : List Char} {n0 n1 n2 v : Int}
    (hsplit : pySplit '.' (pyStrip cs bracketChars) = [p0, p1, p2, p3])
    (h0 : pyInt p0 = some n0) (h1 : pyInt p1 = some n1) (h2 : pyInt p2 = some n2)
    (h3 : pyInt p3 = some v)
    (hr : (0 ≤ n0 ∧ n0 ≤ 255) ∧ (0 ≤ n1 ∧ n1 ≤ 255) ∧ (0 ≤ n2 ∧ n2 ≤ 255))
    (hv : 255 < v) :
    normalize_ip cs
      = if 255 < n2 + Int.fdiv v 256 then none
        else some (pyJoin '.' [p0, p1, pyStrInt (n2 + Int.fdiv v 256),
            pyStrInt (Int.fmod v 256)]) := by
  have hnn : 0 ≤ n2 + Int.fdiv v 256 :=
    add_nonneg hr.2.2.1 (Int.fdiv_nonneg (by omega) (by omega))
  simp only [normalize_ip, hsplit, h0, h1, h2, h3, if_pos hr, if_pos hv,
    pyInt_pyStrInt_of_nonneg _ hnn]

/-- The split of a `pyInt`-accepted quad reassembles to the original
string, and such a string is untouched by the bracket strip (a string
`int()` accepts contains no bracket at either end). -/
theorem pyStrip_brackets_of_parses {cs p0 p1 p2 p3 : List Char} {n0 v : Int}
    (hsplit : pySplit '.' cs = [p0, p1, p2, p3])
    (h0 : pyInt p0 = some n0) (h3 : pyInt p3 = some v) :
    pyStrip cs bracketChars = cs := by
  have hj : p0 ++ '.' :: (p1 ++ '.' :: (p2 ++ '.' :: p3)) = cs := by
    have h := pyJoin_pySplit '.' cs
    rw [hsplit] at h
    simpa [pyJoin] using h
  have hp0 : p0 ≠ [] := pyInt_ne_nil h0
  have hp3 : p3 ≠ [] := pyInt_ne_nil h3
  apply pyStrip_eq_self
  · intro c hc
    rw [← hj, head?_append_of_left_ne_nil _ hp0] at hc
    exact decide_eq_false (pyInt_head_not_bracket h0 hc)
  · intro c hc
    rw [← hj] at hc
    rw [getLast?_append_of_right_ne_nil _ (by simp)] at hc
    rw [show ('.' :: (p1 ++ '.' :: (p2 ++ '.' :: p3)))
        = ['.'] ++ (p1 ++ '.' :: (p2 ++ '.' :: p3)) from rfl] at hc
    rw [getLast?_append_of_right_ne_nil _ (by simp)] at hc
    rw [getLast?_append_of_right_ne_nil _ (by simp)] at hc
    rw [show ('.' :: (p2 ++ '.' :: p3)) = ['.'] ++ (p2 ++ '.' :: p3) from rfl] at hc
    rw [getLast?_append_of_right_ne_nil _ (by simp)] at hc
    rw [getLast?_append_of_right_ne_nil _ (by simp [hp3])] at hc
    rw [show ('.' :: p3) = ['.'] ++ p3 from rfl] at hc
    rw [getLast?_append_of_right_ne_nil _ hp3] at hc
    exact decide_eq_false (pyInt_getLast_not_bracket h3 hc)

/-- On a raw dotted quad whose four parts all parse, with the first
three in range and the last ≤ 255, `normalize_ip` is the identity. -/
theorem normalize_ip_id {cs p0 p1 p2 p3 : List Char} {n0 n1 n2 v : Int}
    (hsplit : pySplit '.' cs = [p0, p1, p2, p3])
    (h0 : pyInt p0 = some n0) (h1 : pyInt p1 = some n1) (h2 : pyInt p2 = some n2)
    (h3 : pyInt p3 = some v)
    (hr : (0 ≤ n0 ∧ n0 ≤ 255) ∧ (0 ≤ n1 ∧ n1 ≤ 255) ∧ (0 ≤ n2 ∧ n2 ≤ 255))
    (hv : v ≤ 255) :
    normalize_ip cs = some cs := by
  have hstrip : pyStrip cs bracketChars = cs :=
    pyStrip_brackets_of_parses hsplit h0 h3
  have hsplit' : pySplit '.' (pyStrip cs bracketChars) = [p0, p1, p2, p3] := by
    rw [hstrip]; exact hsplit
  rw [normalize_ip_no_carry hsplit' h0 h1 h2 h3 hr (by omega)]
  rw [show pyJoin '.' [p0, p1, p2, p3] = cs from by
    rw [← hsplit, pyJoin_pySplit]]

/-- Stripping brackets first does not change the result of
`normalize_ip` (the function strips again, and the strip is
idempotent). The source relies on this on line 78, where `is_valid_ip`
passes its already-stripped local `ip` to `normalize_ip`. -/
theorem normalize_ip_pyStrip (cs : List Char) :
    normalize_ip (pyStrip cs bracketChars) = normalize_ip cs := by
  simp only [normalize_ip, pyStrip_idem]

/-- `is_valid_ip` succeeds exactly when `normalize_ip` returns an
address: the two functions run the same strip/split/range checks, and
on a large fourth octet `is_valid_ip` defers to `normalize_ip`
directly. -/
theorem valid_eq_isSome_normalize (cs : List Char) :
    is_valid_ip cs = (normalize_ip cs).isSome := by
  rw [← normalize_ip_pyStrip]
  simp only [is_valid_ip]
  cases hP : pySplit '.' (pyStrip cs bracketChars) with
  | nil => exact absurd hP (pySplit_ne_nil _ _)
  | cons q0 qs =>
    cases qs with
    | nil => simp [normalize_ip, pyStrip_idem, hP]
    | cons q1 qs =>
      cases qs with
      | nil => simp [normalize_ip, pyStrip_idem, hP]
      | cons q2 qs =>
        cases qs with
        | nil => simp [normalize_ip, pyStrip_idem, hP]
        | cons q3 qs =>
          cases qs with
          | cons q4 qs => simp [normalize_ip, pyStrip_idem, hP]
          | nil =>
            cases h0 : pyInt q0 with
            | none => simp [normalize_ip, pyStrip_idem, hP, h0]
            | some n0 =>
              cases h1 : pyInt q1 with
              | none => simp [normalize_ip, pyStrip_idem, hP, h0, h1]
              | some n1 =>
                cases h2 : pyInt q2 with
                | none => simp [normalize_ip, pyStrip_idem, hP, h0, h1, h2]
                | some n2 =>
                  by_cases hr : (0 ≤ n0 ∧ n0 ≤ 255) ∧ (0 ≤ n1 ∧ n1 ≤ 255)
                      ∧ (0 ≤ n2 ∧ n2 ≤ 255)
                  · cases h3 : pyInt q3 with
                    | none =>
                      simp [normalize_ip, pyStrip_idem, hP, h0, h1, h2, hr, h3]
                    | some v =>
                      by_cases hv : v ≤ 255
                      · simp [normalize_ip, pyStrip_idem, hP, h0, h1, h2, h3, hr,
                          hv, not_lt.mpr hv]
                      · simp [hP, h0, h1, h2, h3, hr, hv]
                  · simp [normalize_ip, pyStrip_idem, hP, h0, h1, h2, hr]

/-- An input that does not split into exactly four dot-separated parts
after the bracket strip is rejected by both functions. -/
theorem rejected_of_not_four_parts {cs : List Char}
    (h : (pySplit '.' (pyStrip cs bracketChars)).length ≠ 4) :
    normalize_ip cs = none ∧ is_valid_ip cs = false := by
  cases hP : pySplit '.' (pyStrip cs bracketChars) with
  | nil => exact absurd hP (pySplit_ne_nil _ _)
  | cons q0 qs =>
    cases qs with
    | nil => constructor <;> simp [normalize_ip, is_valid_ip, hP]
    | cons q1 qs =>
      cases qs with
      | nil => constructor <;> simp [normalize_ip, is_valid_ip, hP]
      | cons q2 qs =>
        cases qs with
        | nil => constructor <;> simp [normalize_ip, is_valid_ip, hP]
        | cons q3 qs =>
          cases qs with
          | cons q4 qs => constructor <;> simp [normalize_ip, is_valid_ip, hP]
          | nil => rw [hP] at h; simp at h

/-! ## Lemmas about grouping, flushing and the pipeline trace -/

/-- Every line stored under a key of `country_results` carries that key
as its country code: invariant of the dict-building fold. -/
theorem mem_foldl_addToCountry {rs : List String} {acc : List (String × List String)}
    (hacc : ∀ p ∈ acc, ∀ l ∈ p.2, countryOf l = p.1) :
    ∀ p ∈ rs.foldl addToCountry acc, ∀ l ∈ p.2, countryOf l = p.1 := by
  induction rs generalizing acc with
  | nil => simpa using hacc
  | cons r rs ih =>
    rw [List.foldl_cons]
    apply ih
    intro p hp l hl
    simp only [addToCountry] at hp
    by_cases hany : acc.any (fun q => q.1 = countryOf r) = true
    · simp only [hany, if_true] at hp
      obtain ⟨q, hq, hqe⟩ := List.mem_map.mp hp
      by_cases hqc : q.1 = countryOf r
      · rw [if_pos hqc] at hqe
        rw [← hqe] at hl ⊢
        rcases List.mem_append.mp hl with hl' | hl'
        · exact hacc q hq l hl'
        · rw [List.mem_singleton.mp hl']
          exact hqc.symm
      · rw [if_neg hqc] at hqe
        rw [← hqe] at hl ⊢
        exact hacc q hq l hl
    · simp only [hany, if_false] at hp
      rcases List.mem_append.mp hp with hp' | hp'
      · exact hacc p hp' l hl
      · rw [List.mem_singleton.mp hp'] at hl ⊢
        rw [List.mem_singleton.mp hl]

/-- An `"XX"`-coded line is absent from every shard write of the plan. -/
theorem shard_plan_no_xx {rs : List String} {r : String}
    (hxx : countryOf r = "XX") :
    ∀ p ∈ shard_write_plan (rs.foldl addToCountry []), r ∉ p.2 := by
  intro p hp hrp
  simp only [shard_write_plan] at hp
  obtain ⟨q, hq, hqe⟩ := List.mem_map.mp hp
  obtain ⟨hqf, hqne⟩ := List.mem_filter.mp hq
  have hkey : countryOf r = q.1 := by
    apply mem_foldl_addToCountry (by simp) q hqf r
    rw [← hqe] at hrp
    exact hrp
  rw [hxx] at hkey
  simp at hqne
  exact hqne hkey.symm

theorem takeWhile_append_of_all {α : Type} (p : α → Bool) (xs ys : List α)
    (h : ∀ x ∈ xs, p x = true) :
    (xs ++ ys).takeWhile p = xs ++ ys.takeWhile p := by
  induction xs with
  | nil => simp
  | cons a xs ih =>
    rw [List.cons_append, List.takeWhile_cons, h a (by simp),
      ih (fun x hx => h x (by simp [hx]))]
    simp

theorem dropWhile_append_of_all {α : Type} (p : α → Bool) (xs ys : List α)
    (h : ∀ x ∈ xs, p x = true) :
    (xs ++ ys).dropWhile p = ys.dropWhile p := by
  induction xs with
  | nil => simp
  | cons a xs ih =>
    rw [List.cons_append, List.dropWhile_cons, h a (by simp),
      ih (fun x hx => h x (by simp [hx]))]
    simp

theorem takeWhile_eq_nil_of_all_false {α : Type} (p : α → Bool) (l : List α)
    (h : ∀ x ∈ l, p x = false) : l.takeWhile p = [] := by
  cases l with
  | nil => rfl
  | cons a l => rw [List.takeWhile_cons, h a (by simp)]; rfl

theorem dropWhile_eq_self_of_all_false {α : Type} (p : α → Bool) (l : List α)
    (h : ∀ x ∈ l, p x = false) : l.dropWhile p = l := by
  cases l with
  | nil => rfl
  | cons a l => rw [List.dropWhile_cons, h a (by simp)]; rfl

/-- Appending to a shard never loses a line the file already holds:
one step of the `resolve_domain` flush loop. -/
theorem mem_flush_append_step (fs : FileSystem) (p : String × List String)
    (f : String) (l : String) (h : l ∈ (fs f).getD []) :
    l ∈ (((if p.1 = "XX" then fs
        else write_lines_append fs (shardFileName p.1) p.2)) f).getD [] := by
  by_cases hxx : p.1 = "XX"
  · rw [if_pos hxx]; exact h
  · rw [if_neg hxx]
    simp only [write_lines_append]
    by_cases hf : f = shardFileName p.1
    · rw [if_pos hf, Option.getD_some]
      rw [hf] at h
      exact List.mem_append_left _ h
    · rw [if_neg hf]; exact h

theorem mem_resolve_domain_flush (fs : FileSystem)
    (cr : List (String × List String)) (f : String) (l : String)
    (h : l ∈ (fs f).getD []) :
    l ∈ ((resolve_domain_flush fs cr) f).getD [] := by
  induction cr generalizing fs with
  | nil => exact h
  | cons p cr ih =>
    simp only [resolve_domain_flush, List.foldl_cons]
    exact ih _ (mem_flush_append_step fs p f l h)

/-! ## Concrete oracles used by the counterexamples and witnesses -/

/-- A database miss followed by a successful first online answer. -/
def demoDbMissApi : Nat → ApiResult := fun _ => .response 200 (.json true (some "US"))

/-- The online API answers HTTP 429 to every attempt. -/
def alwaysRateLimited : Nat → ApiResult := fun _ => .response 429 .empty

/-- Per-address resolution that succeeds with country `US` on port 443. -/
def demoResolve : String → List String := fun ip => [ip ++ ":443#US"]

/-- Per-address resolution that ends unresolved (`XX`) on port 443. -/
def demoResolveXX : String → List String := fun ip => [ip ++ ":443#XX"]

/-- An output directory already holding one line in the `us` shard. -/
def preexistingFS : FileSystem := fun f => if f = "ip/us.txt" then some ["old"] else none

/-- An empty output directory. -/
def emptyFS : FileSystem := fun _ => none

/-! ## Claim theorems -/

/-- C6: for a dotted-quad input whose first three octets parse to
integers in [0,255] and whose fourth octet `v` is greater than 255,
`normalize_ip` returns the address with the third octet incremented by
`v // 256` and the fourth replaced by `v % 256` when the updated third
octet stays ≤ 255, and rejects when it exceeds 255. -/
theorem c6_carry_repair {cs p0 p1 p2 p3 : List Char} {n0 n1 n2 v : Int}
    (hsplit : pySplit '.' (pyStrip cs bracketChars) = [p0, p1, p2, p3])
    (h0 : pyInt p0 = some n0) (hr0 : 0 ≤ n0 ∧ n0 ≤ 255)
    (h1 : pyInt p1 = some n1) (hr1 : 0 ≤ n1 ∧ n1 ≤ 255)
    (h2 : pyInt p2 = some n2) (hr2 : 0 ≤ n2 ∧ n2 ≤ 255)
    (h3 : pyInt p3 = some v) (hv : 255 < v) :
    (n2 + Int.fdiv v 256 ≤ 255 →
      normalize_ip cs = some (pyJoin '.'
        [p0, p1, pyStrInt (n2 + Int.fdiv v 256), pyStrInt (Int.fmod v 256)]))
    ∧ (255 < n2 + Int.fdiv v 256 → normalize_ip cs = none) := by
  have h := normalize_ip_carry hsplit h0 h1 h2 h3 ⟨hr0, hr1, hr2⟩ hv
  constructor
  · intro hle
    rw [h, if_neg (by omega)]
  · intro hgt
    rw [h, if_pos hgt]

/-- Witness for C6: `"1.1.1.300"` is repaired to `"1.1.2.44"`, and
`"1.255.255.300"` (third-octet overflow after carry) is rejected. -/
theorem c6_carry_repair_witness :
    normalize_ip ("1.1.1.300".data) = some ("1.1.2.44".data)
    ∧ normalize_ip ("1.255.255.300".data) = none := by
  constructor
  · have h := (@c6_carry_repair "1.1.1.300".data ['1'] ['1'] ['1'] ['3', '0', '0']
      1 1 1 300
      (by decide) (by decide) (by decide) (by decide) (by decide) (by decide)
      (by decide) (by decide) (by decide)).1 (by decide)
    rw [h]
    decide
  · exact (@c6_carry_repair "1.255.255.300".data ['1'] ['2', '5', '5']
      ['2', '5', '5'] ['3', '0', '0'] 1 255 255 300
      (by decide) (by decide) (by decide) (by decide) (by decide) (by decide)
      (by decide) (by decide) (by decide)).2 (by decide)

/-- C7: `normalize_ip` is the identity on already-valid dotted quads —
four parts, each parsing to an integer in [0,255]. -/
theorem c7_normalize_identity_on_valid {cs p0 p1 p2 p3 : List Char}
    {n0 n1 n2 n3 : Int}
    (hsplit : pySplit '.' cs = [p0, p1, p2, p3])
    (h0 : pyInt p0 = some n0) (hr0 : 0 ≤ n0 ∧ n0 ≤ 255)
    (h1 : pyInt p1 = some n1) (hr1 : 0 ≤ n1 ∧ n1 ≤ 255)
    (h2 : pyInt p2 = some n2) (hr2 : 0 ≤ n2 ∧ n2 ≤ 255)
    (h3 : pyInt p3 = some n3) (hr3 : 0 ≤ n3 ∧ n3 ≤ 255) :
    normalize_ip cs = some cs :=
  normalize_ip_id hsplit h0 h1 h2 h3 ⟨hr0, hr1, hr2⟩ hr3.2

/-- Witness for C7: `"8.8.8.8"` is returned unchanged. -/
theorem c7_normalize_identity_on_valid_witness :
    normalize_ip ("8.8.8.8".data) = some ("8.8.8.8".data) :=
  @c7_normalize_identity_on_valid "8.8.8.8".data ['8'] ['8'] ['8'] ['8']
    8 8 8 8
    (by decide) (by decide) (by decide) (by decide) (by decide)
    (by decide) (by decide) (by decide) (by decide)

/-- C8 counterexample: a bracketed IPv6 literal does NOT pass
validation — `is_valid_ip` returns `False` and `normalize_ip` rejects
it, contradicting the claim that bracketed IPv6 literals are accepted
after bracket stripping. -/
theorem c8_counterexample :
    is_valid_ip ("[2001:db8::1]".data) = false
    ∧ normalize_ip ("[2001:db8::1]".data) = none := by
  decide

/-- C8 (amended): normalization strips the surrounding brackets, but
any input that does not then split into exactly four dot-separated
parts — in particular a bracketed IPv6 literal — is rejected by both
`normalize_ip` and `is_valid_ip`. -/
theorem c8_bracketed_ipv6_rejected {cs : List Char}
    (h : (pySplit '.' (pyStrip cs bracketChars)).length ≠ 4) :
    normalize_ip cs = none ∧ is_valid_ip cs = false :=
  rejected_of_not_four_parts h

/-- Witness for the amended C8 at the bracketed IPv6 literal
`"[2001:db8::1]"`. -/
theorem c8_bracketed_ipv6_rejected_witness :
    normalize_ip ("[2001:db8::1]".data) = none
    ∧ is_valid_ip ("[2001:db8::1]".data) = false :=
  c8_bracketed_ipv6_rejected (by decide)

/-- C9: validity checking and normalization agree on every input
string: `is_valid_ip` returns `True` exactly when `normalize_ip`
returns an address. -/
theorem c9_valid_iff_normalize (cs : List Char) :
    is_valid_ip cs = (normalize_ip cs).isSome :=
  valid_eq_isSome_normalize cs

/-- C10: a negative fourth octet is never checked — if the first three
parts parse to integers in [0,255] and the fourth parses to a negative
integer, `normalize_ip` accepts the string unchanged. -/
theorem c10_negative_fourth_octet_accepted {cs p0 p1 p2 p3 : List Char}
    {n0 n1 n2 v : Int}
    (hsplit : pySplit '.' cs = [p0, p1, p2, p3])
    (h0 : pyInt p0 = some n0) (hr0 : 0 ≤ n0 ∧ n0 ≤ 255)
    (h1 : pyInt p1 = some n1) (hr1 : 0 ≤ n1 ∧ n1 ≤ 255)
    (h2 : pyInt p2 = some n2) (hr2 : 0 ≤ n2 ∧ n2 ≤ 255)
    (h3 : pyInt p3 = some v) (hneg : v < 0) :
    normalize_ip cs = some cs :=
  normalize_ip_id hsplit h0 h1 h2 h3 ⟨hr0, hr1, hr2⟩ (by omega)

/-- Witness for C10: `"1.2.3.-7"` is accepted and returned unchanged. -/
theorem c10_negative_fourth_octet_accepted_witness :
    normalize_ip ("1.2.3.-7".data) = some ("1.2.3.-7".data) :=
  @c10_negative_fourth_octet_accepted "1.2.3.-7".data ['1'] ['2'] ['3']
    ['-', '7'] 1 2 3 (-7)
    (by decide) (by decide) (by decide) (by decide) (by decide)
    (by decide) (by decide) (by decide) (by decide)

/-- C1 counterexample: resolution has no cache. With a missed local
database and an online API that answers successfully at once, each of
two `get_country_code` calls on the same address issues one local
query and one online call — two network calls in total, not at most
one, and a second local query is issued as well. -/
theorem c1_counterexample :
    (get_country_code none demoDbMissApi).dbQueries
        + (get_country_code none demoDbMissApi).dbQueries = 2
    ∧ (get_country_code none demoDbMissApi).onlineCalls
        + (get_country_code none demoDbMissApi).onlineCalls = 2
    ∧ ¬((get_country_code none demoDbMissApi).onlineCalls
        + (get_country_code none demoDbMissApi).onlineCalls ≤ 1) := by
  decide

/-- C1 (amended): `get_country_code` maintains no cache. Whenever the
local lookup raises and the first online attempt answers a successful
payload, every call issues exactly one local-database query and one
online call, so two calls on the same address perform two local
queries and two network calls in total. -/
theorem c1_no_cache_repeat_queries (db : Option String) (api : Nat → ApiResult)
    (cc : String) (hdb : db = none)
    (hapi : api 0 = .response 200 (.json true (some cc))) :
    (get_country_code db api).dbQueries + (get_country_code db api).dbQueries = 2
    ∧ (get_country_code db api).onlineCalls
        + (get_country_code db api).onlineCalls = 2 := by
  subst hdb
  simp [get_country_code, online_query_loop, MAX_RETRIES, hapi]

/-- Witness for the amended C1. -/
theorem c1_no_cache_repeat_queries_witness :
    (get_country_code none demoDbMissApi).dbQueries
        + (get_country_code none demoDbMissApi).dbQueries = 2
    ∧ (get_country_code none demoDbMissApi).onlineCalls
        + (get_country_code none demoDbMissApi).onlineCalls = 2 :=
  c1_no_cache_repeat_queries none demoDbMissApi "US" rfl rfl

/-- C2 counterexample: with `MAX_RETRIES = 2` and an online API that
answers HTTP 429 to every attempt, `get_country_code` makes exactly
2 online calls in total (1 initial + 1 retry), not the 3 the claim
states, before returning `"XX"`. -/
theorem c2_counterexample :
    (get_country_code none alwaysRateLimited).onlineCalls = 2
    ∧ (get_country_code none alwaysRateLimited).onlineCalls ≠ 3
    ∧ (get_country_code none alwaysRateLimited).code = "XX" := by
  decide

/-- C2 (amended): when the online API answers HTTP 429 on every attempt
and the retry cap (`MAX_RETRIES`) is 2, resolution ends with `"XX"`
after exactly 1 retry — 2 total online calls — with a single backoff
wait of `baseInterval * 2^1` seconds between the two rate-limited
attempts (the exponent is the just-incremented retry counter). -/
theorem c2_rate_limit_two_total_calls (api : Nat → ApiResult)
    (h : ∀ k, ∃ b, api k = ApiResult.response 429 b) :
    get_country_code none api
      = ⟨"XX", 1, 2, [(2 ^ (1 : ℕ) : ℚ) * MIN_INTERVAL]⟩ := by
  obtain ⟨b0, h0⟩ := h 0
  obtain ⟨b1, h1⟩ := h 1
  simp [get_country_code, online_query_loop, MAX_RETRIES, h0, h1]

/-- Witness for the amended C2. -/
theorem c2_rate_limit_two_total_calls_witness :
    get_country_code none alwaysRateLimited
      = ⟨"XX", 1, 2, [(2 ^ (1 : ℕ) : ℚ) * MIN_INTERVAL]⟩ :=
  c2_rate_limit_two_total_calls alwaysRateLimited (fun _ => ⟨ApiBody.empty, rfl⟩)

/-- C3 counterexample: on input `["a", "b", "c"]` the URL pipeline
performs a single `batch_process_ips` run over all three addresses and
a single flush phase afterwards: the trace contains exactly one shard
write, and all three process events precede it — no shard write
completes before the third address is processed, so the output is not
flushed in two groups of batch size 2. -/
theorem c3_counterexample :
    read_ip_from_url_trace ["a", "b", "c"] demoResolve
      = [PipelineEvent.process "a", PipelineEvent.process "b",
          PipelineEvent.process "c",
          PipelineEvent.flushShard "ip/us.txt"
            ["a:443#US", "b:443#US", "c:443#US"]]
    ∧ ((read_ip_from_url_trace ["a", "b", "c"] demoResolve).takeWhile
        isProcess).length = 3
    ∧ ((read_ip_from_url_trace ["a", "b", "c"] demoResolve).filter
        (fun e => !isProcess e)).length = 1 := by
  decide

/-- C3 (amended): the code does not partition into fixed-size batches.
The whole deduplicated address set is submitted to one worker pool as a
single batch, and every per-country shard write happens strictly after
every address has been processed: the trace is all process events
followed by all flush events. -/
theorem c3_single_batch_flush_after_all (ips : List String)
    (resolveLine : String → List String) :
    (read_ip_from_url_trace ips resolveLine).takeWhile isProcess
        = ips.map PipelineEvent.process
    ∧ ((read_ip_from_url_trace ips resolveLine).dropWhile isProcess).all
        (fun e => !isProcess e) = true := by
  have hproc : ∀ e ∈ ips.map PipelineEvent.process, isProcess e = true := by
    intro e he
    obtain ⟨ip, _, rfl⟩ := List.mem_map.mp he
    rfl
  have hflush : ∀ e ∈ (shard_write_plan
      (batch_process_ips resolveLine ips).2).map
        (fun p => PipelineEvent.flushShard p.1 p.2), isProcess e = false := by
    intro e he
    obtain ⟨p, _, rfl⟩ := List.mem_map.mp he
    rfl
  constructor
  · rw [read_ip_from_url_trace, takeWhile_append_of_all _ _ _ hproc,
      takeWhile_eq_nil_of_all_false _ _ hflush, List.append_nil]
  · rw [read_ip_from_url_trace, dropWhile_append_of_all _ _ _ hproc,
      dropWhile_eq_self_of_all_false _ _ hflush]
    rw [List.all_eq_true]
    intro e he
    rw [hflush e he]
    rfl

/-- C4 counterexample: the URL-sourced flush opens shard files in
overwrite mode. A line already present in `ip/us.txt` is gone after
`read_ip_from_url` flushes new `US` results, so flushing does not
append and does not preserve previously written lines. -/
theorem c4_counterexample :
    read_ip_from_url_flush preexistingFS [("US", ["new"])] "ip/us.txt"
        = some ["new"]
    ∧ "old" ∈ (preexistingFS "ip/us.txt").getD []
    ∧ "old" ∉ (read_ip_from_url_flush preexistingFS [("US", ["new"])]
        "ip/us.txt").getD [] := by
  decide

/-- C4 (amended): only the domain-sourced flush (`resolve_domain`,
mode `'a'`) appends and therefore preserves every line a shard file
already holds; the URL-sourced flush (`read_ip_from_url`, mode `'w'`)
replaces a flushed country's shard file with exactly the new lines. -/
theorem c4_domain_appends_url_overwrites :
    (∀ (fs : FileSystem) (cr : List (String × List String)) (f : String)
        (l : String), l ∈ (fs f).getD [] →
          l ∈ ((resolve_domain_flush fs cr) f).getD [])
    ∧ (∀ (fs : FileSystem) (cc : String) (lines : List String), cc ≠ "XX" →
        read_ip_from_url_flush fs [(cc, lines)] (shardFileName cc)
          = some lines) := by
  constructor
  · exact fun fs cr f l h => mem_resolve_domain_flush fs cr f l h
  · intro fs cc lines hcc
    simp only [read_ip_from_url_flush, List.foldl_cons, List.foldl_nil,
      if_neg hcc, write_lines_overwrite, if_pos rfl]
    simp

/-- Witness for the amended C4: the pre-existing `"old"` line survives
a domain-path append of `"new"`, and a URL-path flush of `["x"]` for
`FR` leaves exactly `["x"]` in the `fr` shard. -/
theorem c4_domain_appends_url_overwrites_witness :
    "old" ∈ ((resolve_domain_flush preexistingFS [("US", ["new"])])
        "ip/us.txt").getD []
    ∧ read_ip_from_url_flush preexistingFS [("FR", ["x"])] (shardFileName "FR")
        = some ["x"] :=
  ⟨c4_domain_appends_url_overwrites.1 preexistingFS [("US", ["new"])]
      "ip/us.txt" "old" (by decide),
    c4_domain_appends_url_overwrites.2 preexistingFS "FR" ["x"] (by decide)⟩

/-- C5: a result line whose country code is the sentinel `"XX"` is
written to no per-country shard file, yet every result line collected
by the run — `"XX"`-coded ones included — appears in the combined
`ip/ip.txt` written by `main`. -/
theorem c5_xx_excluded_from_shards_in_combined
    (resolveLine : String → List String) (ips : List String)
    (domainResults : List String) (r : String) (fs : FileSystem)
    (hr : r ∈ (batch_process_ips resolveLine ips).1) :
    (countryOf r = "XX" →
      ∀ p ∈ shard_write_plan (batch_process_ips resolveLine ips).2, r ∉ p.2)
    ∧ r ∈ ((main_combined_write fs
        (domainResults ++ (batch_process_ips resolveLine ips).1))
          "ip/ip.txt").getD [] := by
  constructor
  · intro hxx
    simp only [batch_process_ips]
    exact shard_plan_no_xx hxx
  · have hne : domainResults ++ (batch_process_ips resolveLine ips).1 ≠ [] := by
      intro h
      rw [List.append_eq_nil] at h
      rw [h.2] at hr
      simp at hr
    simp only [main_combined_write, if_neg hne, write_lines_overwrite,
      if_pos rfl, Option.getD_some]
    exact List.mem_append_right _ hr

/-- Witness for C5 with a concrete `"XX"`-coded result line. -/
theorem c5_xx_excluded_from_shards_in_combined_witness :
    (countryOf "1.2.3.4:443#XX" = "XX" →
      ∀ p ∈ shard_write_plan (batch_process_ips demoResolveXX ["1.2.3.4"]).2,
        "1.2.3.4:443#XX" ∉ p.2)
    ∧ "1.2.3.4:443#XX" ∈ ((main_combined_write emptyFS
        ([] ++ (batch_process_ips demoResolveXX ["1.2.3.4"]).1))
          "ip/ip.txt").getD [] :=
  c5_xx_excluded_from_shards_in_combined demoResolveXX ["1.2.3.4"] []
    "1.2.3.4:443#XX" emptyFS (by decide)

end IpRepo
